import Mathlib

/-
Verification of the transcript cleaner in
`src/hooks/scripts/context-tool-cleaner.py`.

The development has two layers:

* a raw-value layer (`PyVal`, `mkMessage`) embedding `Message.__init__`
  and `Message._parse_content`, including the `AttributeError` paths of
  Python's `dict.get` on non-mapping receivers (modelled with `Except`);

* an engine layer (`Message`, `clean`) embedding `TranscriptCleaner.clean`
  together with the uuid index that `TranscriptCleaner.load` builds.
  Identifiers are modelled as `Option String` (`none` is Python `None`;
  the spec calls them opaque string identifiers).  Python dicts are
  insertion-ordered association lists (`dictInsert` keeps the position of
  an existing key and appends new keys, exactly like `d[k] = v`), and the
  removal set is an insertion-ordered duplicate-free list.  The unbounded
  `while` walk of the chain-repair step is embedded as the fuel-indexed
  `chainWalk`; `clean` runs it with fuel equal to the size of the removal
  set, which is proved sufficient whenever the parent relation is acyclic
  on removed records - the only case in which the Python loop terminates.
-/

namespace TCC

/-- Python-style structured values: the result of `json.loads` on one
transcript line, as received by `Message.__init__`. -/
inductive PyVal where
  | vnull
  | vbool (b : Bool)
  | vnum (n : Int)
  | vstr (s : String)
  | vlist (xs : List PyVal)
  | vdict (entries : List (String × PyVal))

/-- Key lookup in a raw mapping (the access underlying Python `dict.get`). -/
def pyLookup : List (String × PyVal) → String → Option PyVal
  | [], _ => none
  | (k, v) :: rest, key => if k = key then some v else pyLookup rest key

/-- Python `v.get(key, default)` where `v` may not be a mapping: a
non-mapping receiver has no `get` attribute and raises `AttributeError`,
modelled as `Except.error`. -/
def pyDotGet (v : PyVal) (key : String) (dflt : PyVal) : Except Unit PyVal :=
  match v with
  | .vdict es => .ok ((pyLookup es key).getD dflt)
  | _ => .error ()

/-- Python truthiness of a raw value (`if tid:`). -/
def pyTruthy : PyVal → Bool
  | .vnull => false
  | .vbool b => b
  | .vnum n => n != 0
  | .vstr s => s != ""
  | .vlist xs => !xs.isEmpty
  | .vdict es => !es.isEmpty

/-- Loop body of `Message._parse_content`: `acc` is the pair
(`tool_ids` collected so far, current `tool_use_id_ref`).  A list item
that is not a mapping raises (`item.get('type')` on a non-dict); a
`tool_use` item appends `item.get('id')` (possibly Python `None`); a
`tool_result` item overwrites the ref only when `tool_use_id` is truthy. -/
def parseItem (acc : List PyVal × Option PyVal) (item : PyVal) :
    Except Unit (List PyVal × Option PyVal) :=
  match item with
  | .vdict es =>
    match (pyLookup es "type").getD .vnull with
    | .vstr s =>
      if s = "tool_use" then
        .ok (acc.1 ++ [(pyLookup es "id").getD .vnull], acc.2)
      else if s = "tool_result" then
        let tid := (pyLookup es "tool_use_id").getD .vnull
        if pyTruthy tid then .ok (acc.1, some tid) else .ok acc
      else .ok acc
    | _ => .ok acc
  | _ => .error ()

/-- The typed view that `Message.__init__` computes from a raw record:
`uuid`, `parentUuid`, `type` via `data.get`, the raw `content`, the
`tool_use_id` reference (unset when no truthy one is seen) and the
collected `tool_use` ids. -/
structure RawMsg where
  uuid : PyVal
  parentUuid : PyVal
  mtype : PyVal
  content : PyVal
  toolUseIdRef : Option PyVal
  toolIds : List PyVal

/-- `Message.__init__` on a raw mapping: `content` is
`data.get('message', {}).get('content', [])` (raising when the `message`
value is present but not a mapping), and `_parse_content` walks `content`
only when it is a list (raising on a non-mapping list item). -/
def mkMessage (data : List (String × PyVal)) : Except Unit RawMsg :=
  let uuid := (pyLookup data "uuid").getD .vnull
  let parent := (pyLookup data "parentUuid").getD .vnull
  let mtype := (pyLookup data "type").getD .vnull
  let msgv := (pyLookup data "message").getD (.vdict [])
  match pyDotGet msgv "content" (.vlist []) with
  | .error e => .error e
  | .ok content =>
    match content with
    | .vlist xs =>
      match xs.foldlM parseItem ([], none) with
      | .error e => .error e
      | .ok acc => .ok ⟨uuid, parent, mtype, content, acc.2, acc.1⟩
    | _ => .ok ⟨uuid, parent, mtype, content, none, []⟩

/-- One record of the engine's input: the fields of the script's `Message`
that `TranscriptCleaner.clean` reads.  `toolIds` elements are
`item.get('id')` values and may be `none` (Python `None` is a legal dict
key); `toolUseIdRef` is the last truthy `tool_use_id`. -/
structure Message where
  uuid : Option String
  parentUuid : Option String
  toolIds : List (Option String)
  toolUseIdRef : Option String
deriving DecidableEq, Repr

/-- Python dict assignment `d[k] = v`: an existing key keeps its insertion
position and gets the new value; a new key is appended. -/
def dictInsert {α β : Type} [DecidableEq α] : List (α × β) → α → β → List (α × β)
  | [], k, v => [(k, v)]
  | (k', v') :: rest, k, v =>
    if k' = k then (k, v) :: rest else (k', v') :: dictInsert rest k v

/-- Python dict lookup `d.get(k)` / `d[k]`. -/
def dictGet? {α β : Type} [DecidableEq α] : List (α × β) → α → Option β
  | [], _ => none
  | (k', v) :: rest, k => if k' = k then some v else dictGet? rest k

/-- The id index `self.uuid_map` built by `TranscriptCleaner.load`: every
record with a truthy uuid (`if msg.uuid:`) is registered, a later record
overwriting an earlier one with the same uuid. -/
def buildUuidMap (msgs : List Message) : List (String × Message) :=
  msgs.foldl (fun um msg =>
    match msg.uuid with
    | some u => if u = "" then um else dictInsert um u msg
    | none => um) []

/-- Step 1 of `clean`, issuer side: `tool_use_map[tid] = msg` for every
`tid` in every record's `tool_ids`, in input order (last write wins). -/
def buildToolUseMap (msgs : List Message) : List (Option String × Message) :=
  msgs.foldl (fun tm msg =>
    msg.toolIds.foldl (fun tm2 tid => dictInsert tm2 tid msg) tm) []

/-- Step 1 of `clean`, responder side: `tool_result_map[ref] = msg` for
every record whose `tool_use_id_ref` is truthy (it is only ever set to a
truthy value, and the guard `if msg.tool_use_id_ref:` re-checks). -/
def buildToolResultMap (msgs : List Message) : List (String × Message) :=
  msgs.foldl (fun rm msg =>
    match msg.toolUseIdRef with
    | some r => if r = "" then rm else dictInsert rm r msg
    | none => rm) []

/-- Marking one matched pair: add the issuer's uuid if absent, then the
responder's uuid if absent, counting a pair only when the responder's uuid
is newly added.  The duplicate-free list mirrors the Python `set`. -/
def markPair (acc : List (Option String) × Nat) (useMsg resMsg : Message) :
    List (Option String) × Nat :=
  let removed := if useMsg.uuid ∈ acc.1 then acc.1 else acc.1 ++ [useMsg.uuid]
  if resMsg.uuid ∈ removed then (removed, acc.2)
  else (removed ++ [resMsg.uuid], acc.2 + 1)

/-- Step 2 loop body of `clean`: a use-map entry whose key also occurs in
the result map marks both sides.  A `none` key (a `tool_use` item without
an id) can never match, since result-map keys are truthy strings. -/
def selStep (resMap : List (String × Message))
    (acc : List (Option String) × Nat) (entry : Option String × Message) :
    List (Option String) × Nat :=
  match entry.1 with
  | some tid =>
    match dictGet? resMap tid with
    | some resMsg => markPair acc entry.2 resMsg
    | none => acc
  | none => acc

/-- Step 2 of `clean`: fold the selection over the use map in insertion
order, returning the removal list (`removed_uuids`) and the matched-pair
count (`tool_pairs_removed`). -/
def selectRemovals (useMap : List (Option String × Message))
    (resMap : List (String × Message)) : List (Option String) × Nat :=
  useMap.foldl (selStep resMap) ([], 0)

/-- The removal-mark set and pair count of `clean` on a given input. -/
def removedInfo (msgs : List Message) : List (Option String) × Nat :=
  selectRemovals (buildToolUseMap msgs) (buildToolResultMap msgs)

/-- `self.uuid_map.get(current_parent)` where `current_parent` may be
`none` (never a key of the uuid map). -/
def lookupCur (um : List (String × Message)) (cur : Option String) :
    Option Message :=
  cur.bind (fun u => dictGet? um u)

/-- One test-and-step of the repair `while` loop: `none` means the loop
stops at `cur` (either `cur` is not marked removed, or the uuid lookup
fails and the loop breaks keeping `cur`); `some nxt` means one more
iteration, moving to the looked-up record's own parent. -/
def walkStep (removed : List (Option String)) (um : List (String × Message))
    (cur : Option String) : Option (Option String) :=
  if cur ∈ removed then
    match lookupCur um cur with
    | none => none
    | some pm => some pm.parentUuid
  else none

/-- Fuel-indexed unfolding of the repair `while` loop
(`while current_parent in removed_uuids: ...`).  `clean` runs it with fuel
equal to the length of the removal list; `chainWalk_done` below shows that
this fuel reaches the loop's exit whenever the parent relation admits a
rank strictly decreasing across removed records (acyclicity), which is
exactly when the Python loop terminates. -/
def chainWalk (removed : List (Option String)) (um : List (String × Message)) :
    Nat → Option String → Option String
  | 0, cur => cur
  | fuel + 1, cur =>
    match walkStep removed um cur with
    | none => cur
    | some nxt => chainWalk removed um fuel nxt

/-- Step 3 body for one surviving record: resolve the parent through the
walk, rewrite it when it changed (the Boolean reports whether
`repaired_links` is incremented). -/
def repairMsg (removed : List (Option String)) (um : List (String × Message))
    (fuel : Nat) (msg : Message) : Message × Bool :=
  let current := chainWalk removed um fuel msg.parentUuid
  if current = msg.parentUuid then (msg, false)
  else ({ msg with parentUuid := current }, true)

/-- Step 3 of `clean`: keep the input order, skip records whose uuid is
marked removed, repair the parents of the survivors and count repairs. -/
def rebuildMessages (removed : List (Option String))
    (um : List (String × Message)) (fuel : Nat) :
    List Message → List Message × Nat
  | [] => ([], 0)
  | msg :: rest =>
    let r := rebuildMessages removed um fuel rest
    if msg.uuid ∈ removed then r
    else
      let rp := repairMsg removed um fuel msg
      (rp.1 :: r.1, (if rp.2 then 1 else 0) + r.2)

/-- The statistics dictionary returned by `clean`. -/
structure CleanStats where
  original_count : Nat
  final_count : Nat
  removed_messages : Nat
  removed_pairs : Nat
  repaired_links : Nat
deriving DecidableEq, Repr

/-- The result dictionary of `clean`: survivors plus statistics. -/
structure CleanResult where
  messages : List Message
  stats : CleanStats
deriving DecidableEq, Repr

/-- `TranscriptCleaner.clean`, with the uuid index rebuilt from the input
exactly as `load` builds it (running `clean` on a freshly loaded list). -/
def clean (msgs : List Message) : CleanResult :=
  let um := buildUuidMap msgs
  let removed := (removedInfo msgs).1
  let pairs := (removedInfo msgs).2
  let reb := rebuildMessages removed um removed.length msgs
  { messages := reb.1,
    stats :=
      { original_count := msgs.length,
        final_count := reb.1.length,
        removed_messages := removed.length,
        removed_pairs := pairs,
        repaired_links := reb.2 } }

/-- A record's immutable part: everything except the one designated
mutable field `parentUuid`, which the repair pass may rewrite in place. -/
def stripParent (m : Message) : Message :=
  { m with parentUuid := none }

/-! ### Association-list (Python dict) lemmas -/

theorem mem_dictInsert {α β : Type} [DecidableEq α] {k : α} {v : β}
    {e : α × β} : ∀ {d : List (α × β)}, e ∈ dictInsert d k v →
    e ∈ d ∨ e = (k, v) := by
  intro d
  induction d with
  | nil => intro h; simpa [dictInsert] using h
  | cons p rest ih =>
    obtain ⟨k', v'⟩ := p
    intro h
    by_cases hk : k' = k
    · simp only [dictInsert, if_pos hk] at h
      rcases List.mem_cons.1 h with h | h
      · exact Or.inr h
      · exact Or.inl (List.mem_cons_of_mem _ h)
    · simp only [dictInsert, if_neg hk] at h
      rcases List.mem_cons.1 h with h | h
      · exact Or.inl (by simp [h])
      · rcases ih h with h' | h'
        · exact Or.inl (List.mem_cons_of_mem _ h')
        · exact Or.inr h'

theorem dictGet?_mem {α β : Type} [DecidableEq α] {k : α} {v : β} :
    ∀ {d : List (α × β)}, dictGet? d k = some v → (k, v) ∈ d := by
  intro d
  induction d with
  | nil => intro h; simp [dictGet?] at h
  | cons p rest ih =>
    obtain ⟨k', v'⟩ := p
    intro h
    by_cases hk : k' = k
    · simp only [dictGet?, if_pos hk, Option.some.injEq] at h
      subst hk; subst h
      exact List.mem_cons_self _ _
    · simp only [dictGet?, if_neg hk] at h
      exact List.mem_cons_of_mem _ (ih h)

theorem mem_dictGet?_isSome {α β : Type} [DecidableEq α] {k : α} {v : β} :
    ∀ {d : List (α × β)}, (k, v) ∈ d → (dictGet? d k).isSome := by
  intro d
  induction d with
  | nil => intro h; simp at h
  | cons p rest ih =>
    obtain ⟨k', v'⟩ := p
    intro h
    by_cases hk : k' = k
    · simp [dictGet?, hk]
    · rcases List.mem_cons.1 h with h' | h'
      · exact absurd (congrArg Prod.fst h').symm hk
      · simpa [dictGet?, hk] using ih h'

theorem dictGet?_insert_isSome {α β : Type} [DecidableEq α] {k' : α}
    (k : α) (v : β) :
    ∀ {d : List (α × β)}, (dictGet? d k').isSome →
      (dictGet? (dictInsert d k v) k').isSome := by
  intro d
  induction d with
  | nil => intro h; simp [dictGet?] at h
  | cons p rest ih =>
    obtain ⟨k0, v0⟩ := p
    intro h
    by_cases hk : k0 = k
    · subst hk
      by_cases hk' : k0 = k'
      · subst hk'
        simp [dictInsert, dictGet?]
      · simp only [dictGet?, if_neg hk'] at h
        simpa [dictInsert, dictGet?, hk'] using h
    · by_cases hk' : k0 = k'
      · subst hk'
        simp [dictInsert, dictGet?, hk]
      · simp only [dictGet?, if_neg hk'] at h
        simpa [dictInsert, dictGet?, hk, hk'] using ih h

theorem dictGet?_insert_self_isSome {α β : Type} [DecidableEq α]
    (d : List (α × β)) (k : α) (v : β) :
    (dictGet? (dictInsert d k v) k).isSome := by
  induction d with
  | nil => simp [dictInsert, dictGet?]
  | cons p rest ih =>
    rcases p with ⟨k0, v0⟩
    by_cases hk : k0 = k
    · simp [dictInsert, dictGet?, hk]
    · simpa [dictInsert, dictGet?, hk] using ih

theorem dictInsert_keys_sub {α β : Type} [DecidableEq α] {d : List (α × β)}
    {k : α} {v : β} {x : α} (h : x ∈ (dictInsert d k v).map Prod.fst) :
    x ∈ d.map Prod.fst ∨ x = k := by
  rcases List.mem_map.1 h with ⟨e, he, rfl⟩
  rcases mem_dictInsert he with h' | h'
  · exact Or.inl (List.mem_map_of_mem _ h')
  · subst h'; exact Or.inr rfl

theorem dictInsert_keys_nodup {α β : Type} [DecidableEq α] {d : List (α × β)}
    (hd : (d.map Prod.fst).Nodup) (k : α) (v : β) :
    ((dictInsert d k v).map Prod.fst).Nodup := by
  induction d with
  | nil => simp [dictInsert]
  | cons p rest ih =>
    rcases p with ⟨k0, v0⟩
    simp only [List.map_cons, List.nodup_cons] at hd
    by_cases hk : k0 = k
    · subst hk
      simpa [dictInsert, List.nodup_cons] using hd
    · simp only [dictInsert, if_neg hk, List.map_cons, List.nodup_cons]
      refine ⟨fun hmem => ?_, ih hd.2⟩
      rcases dictInsert_keys_sub hmem with h' | h'
      · exact hd.1 h'
      · exact hk h'

/-! ### Generic foldl invariants -/

theorem foldl_pres {σ α : Type} (P : σ → Prop) :
    ∀ (l : List α) (f : σ → α → σ),
      (∀ s a, a ∈ l → P s → P (f s a)) → ∀ s, P s → P (l.foldl f s) := by
  intro l
  induction l with
  | nil => intro f _ s hs; simpa using hs
  | cons a rest ih =>
    intro f h s hs
    exact ih f (fun s b hb => h s b (List.mem_cons_of_mem _ hb)) _
      (h s a (List.mem_cons_self _ _) hs)

theorem foldl_estab {σ α : Type} (P : σ → Prop) (m : α) :
    ∀ (l : List α) (f : σ → α → σ),
      (∀ s a, a ∈ l → P s → P (f s a)) → (∀ s, P (f s m)) →
      ∀ s, m ∈ l → P (l.foldl f s) := by
  intro l
  induction l with
  | nil => intro f _ _ s hs; simp at hs
  | cons a rest ih =>
    intro f hpres hest s hs
    rcases List.mem_cons.1 hs with h | h
    · subst h
      exact foldl_pres P rest f
        (fun s b hb => hpres s b (List.mem_cons_of_mem _ hb)) _ (hest s)
    · exact ih f (fun s b hb => hpres s b (List.mem_cons_of_mem _ hb))
        (hest) _ h

/-! ### Invariants of the three indexes built by `load` and Step 1 -/

theorem uuidMap_entry {msgs : List Message} {e : String × Message}
    (h : e ∈ buildUuidMap msgs) :
    e.2 ∈ msgs ∧ e.2.uuid = some e.1 ∧ e.1 ≠ "" := by
  have main : ∀ e ∈ buildUuidMap msgs,
      e.2 ∈ msgs ∧ e.2.uuid = some e.1 ∧ e.1 ≠ "" := by
    refine foldl_pres
      (fun um : List (String × Message) =>
        ∀ e ∈ um, e.2 ∈ msgs ∧ e.2.uuid = some e.1 ∧ e.1 ≠ "")
      msgs _ ?_ [] (by simp)
    intro um msg hmsg hum e he
    rcases hu : msg.uuid with _ | u
    · simp only [hu] at he
      exact hum e he
    · by_cases hemp : u = ""
      · simp only [hu, if_pos hemp] at he
        exact hum e he
      · simp only [hu, if_neg hemp] at he
        rcases mem_dictInsert he with h' | h'
        · exact hum e h'
        · subst h'
          exact ⟨hmsg, hu, hemp⟩
  exact main e h

theorem uuidMap_lookup {msgs : List Message} {u : String} {m : Message}
    (h : dictGet? (buildUuidMap msgs) u = some m) :
    m ∈ msgs ∧ m.uuid = some u ∧ u ≠ "" :=
  uuidMap_entry (dictGet?_mem h)

theorem uuidMap_complete {msgs : List Message} {m : Message} {u : String}
    (hm : m ∈ msgs) (hu : m.uuid = some u) (hne : u ≠ "") :
    (dictGet? (buildUuidMap msgs) u).isSome := by
  refine foldl_estab (fun um => (dictGet? um u).isSome) m msgs _ ?_ ?_ [] hm
  · intro um msg _ hum
    rcases hm' : msg.uuid with _ | u'
    · simpa [hm'] using hum
    · by_cases hemp : u' = ""
      · simpa [hm', hemp] using hum
      · simpa [hm', hemp] using dictGet?_insert_isSome u' msg hum
  · intro um
    simp only [hu, if_neg hne]
    exact dictGet?_insert_self_isSome um u m

theorem useMap_entry {msgs : List Message} {e : Option String × Message}
    (h : e ∈ buildToolUseMap msgs) :
    e.2 ∈ msgs ∧ e.1 ∈ e.2.toolIds := by
  have main : ∀ e ∈ buildToolUseMap msgs, e.2 ∈ msgs ∧ e.1 ∈ e.2.toolIds := by
    refine foldl_pres
      (fun tm : List (Option String × Message) =>
        ∀ e ∈ tm, e.2 ∈ msgs ∧ e.1 ∈ e.2.toolIds)
      msgs _ ?_ [] (by simp)
    intro tm msg hmsg htm
    refine foldl_pres
      (fun tm2 : List (Option String × Message) =>
        ∀ e ∈ tm2, e.2 ∈ msgs ∧ e.1 ∈ e.2.toolIds)
      msg.toolIds _ ?_ tm htm
    intro tm2 tid htid htm2 e he
    rcases mem_dictInsert he with h' | h'
    · exact htm2 e h'
    · subst h'
      exact ⟨hmsg, htid⟩
  exact main e h

theorem useMap_complete {msgs : List Message} {m : Message} {t : Option String}
    (hm : m ∈ msgs) (ht : t ∈ m.toolIds) :
    (dictGet? (buildToolUseMap msgs) t).isSome := by
  refine foldl_estab (fun tm => (dictGet? tm t).isSome) m msgs _ ?_ ?_ [] hm
  · intro tm msg _ htm
    refine foldl_pres (fun tm2 => (dictGet? tm2 t).isSome) msg.toolIds _ ?_ tm htm
    intro tm2 tid _ h
    exact dictGet?_insert_isSome tid msg h
  · intro tm
    refine foldl_estab (fun tm2 => (dictGet? tm2 t).isSome) t m.toolIds _ ?_ ?_ tm ht
    · intro tm2 tid _ h
      exact dictGet?_insert_isSome tid m h
    · intro tm2
      exact dictGet?_insert_self_isSome tm2 t m

theorem useMap_keys_nodup (msgs : List Message) :
    ((buildToolUseMap msgs).map Prod.fst).Nodup := by
  refine foldl_pres
    (fun tm : List (Option String × Message) => (tm.map Prod.fst).Nodup)
    msgs _ ?_ [] (by simp)
  intro tm msg _ htm
  refine foldl_pres
    (fun tm2 : List (Option String × Message) => (tm2.map Prod.fst).Nodup)
    msg.toolIds _ ?_ tm htm
  intro tm2 tid _ h
  exact dictInsert_keys_nodup h tid msg

theorem resMap_entry {msgs : List Message} {e : String × Message}
    (h : e ∈ buildToolResultMap msgs) :
    e.2 ∈ msgs ∧ e.2.toolUseIdRef = some e.1 ∧ e.1 ≠ "" := by
  have main : ∀ e ∈ buildToolResultMap msgs,
      e.2 ∈ msgs ∧ e.2.toolUseIdRef = some e.1 ∧ e.1 ≠ "" := by
    refine foldl_pres
      (fun rm : List (String × Message) =>
        ∀ e ∈ rm, e.2 ∈ msgs ∧ e.2.toolUseIdRef = some e.1 ∧ e.1 ≠ "")
      msgs _ ?_ [] (by simp)
    intro rm msg hmsg hrm e he
    rcases hr : msg.toolUseIdRef with _ | r
    · simp only [buildToolResultMap, hr] at he
      exact hrm e he
    · by_cases hemp : r = ""
      · simp only [hr, hemp, if_pos rfl] at he
        exact hrm e he
      · simp only [hr, if_neg hemp] at he
        rcases mem_dictInsert he with h' | h'
        · exact hrm e h'
        · subst h'
          exact ⟨hmsg, hr, hemp⟩
  exact main e h

theorem resMap_lookup {msgs : List Message} {r : String} {m : Message}
    (h : dictGet? (buildToolResultMap msgs) r = some m) :
    m ∈ msgs ∧ m.toolUseIdRef = some r ∧ r ≠ "" :=
  resMap_entry (dictGet?_mem h)

theorem resMap_complete {msgs : List Message} {m : Message} {r : String}
    (hm : m ∈ msgs) (hr : m.toolUseIdRef = some r) (hne : r ≠ "") :
    (dictGet? (buildToolResultMap msgs) r).isSome := by
  refine foldl_estab (fun rm => (dictGet? rm r).isSome) m msgs _ ?_ ?_ [] hm
  · intro rm msg _ hrm
    rcases hm' : msg.toolUseIdRef with _ | r'
    · simpa [hm'] using hrm
    · by_cases hemp : r' = ""
      · simpa [hm', hemp] using hrm
      · simpa [hm', hemp] using dictGet?_insert_isSome r' msg hrm
  · intro rm
    simp only [hr, if_neg hne]
    exact dictGet?_insert_self_isSome rm r m

/-! ### Lemmas about the Step 2 selection fold -/

theorem markPair_removed_eq (acc : List (Option String) × Nat)
    (u r : Message) :
    (markPair acc u r).1
      = (let rem := if u.uuid ∈ acc.1 then acc.1 else acc.1 ++ [u.uuid]
         if r.uuid ∈ rem then rem else rem ++ [r.uuid]) := by
  simp only [markPair]
  by_cases h2 : r.uuid ∈ (if u.uuid ∈ acc.1 then acc.1 else acc.1 ++ [u.uuid])
  · simp only [if_pos h2]
  · simp only [if_neg h2]

theorem markPair_mono {acc : List (Option String) × Nat} {u r : Message}
    {x : Option String} (h : x ∈ acc.1) : x ∈ (markPair acc u r).1 := by
  rw [markPair_removed_eq]
  by_cases h1 : u.uuid ∈ acc.1 <;> by_cases h3 : r.uuid = u.uuid <;>
    by_cases h2 : r.uuid ∈ acc.1 <;> simp [h1, h2, h3, h]

theorem markPair_mem_left (acc : List (Option String) × Nat) (u r : Message) :
    u.uuid ∈ (markPair acc u r).1 := by
  rw [markPair_removed_eq]
  by_cases h1 : u.uuid ∈ acc.1 <;> by_cases h3 : r.uuid = u.uuid <;>
    by_cases h2 : r.uuid ∈ acc.1 <;> simp [h1, h2, h3]

theorem markPair_mem_right (acc : List (Option String) × Nat) (u r : Message) :
    r.uuid ∈ (markPair acc u r).1 := by
  rw [markPair_removed_eq]
  by_cases h1 : u.uuid ∈ acc.1 <;> by_cases h3 : r.uuid = u.uuid <;>
    by_cases h2 : r.uuid ∈ acc.1 <;> simp [h1, h2, h3]

theorem markPair_sound {acc : List (Option String) × Nat} {u r : Message}
    {x : Option String} (h : x ∈ (markPair acc u r).1) :
    x ∈ acc.1 ∨ x = u.uuid ∨ x = r.uuid := by
  rw [markPair_removed_eq] at h
  by_cases h1 : u.uuid ∈ acc.1 <;> by_cases h3 : r.uuid = u.uuid <;>
    by_cases h2 : r.uuid ∈ acc.1 <;> simp [h1, h2, h3] at h <;> tauto

theorem selStep_mono {resMap : List (String × Message)}
    {acc : List (Option String) × Nat} {e : Option String × Message}
    {x : Option String} (h : x ∈ acc.1) : x ∈ (selStep resMap acc e).1 := by
  rcases he : e.1 with _ | tid
  · simpa [selStep, he] using h
  · rcases hres : dictGet? resMap tid with _ | resMsg
    · simpa [selStep, he, hres] using h
    · simp only [selStep, he, hres]
      exact markPair_mono h

theorem sel_fold_mono {resMap : List (String × Message)} :
    ∀ (l : List (Option String × Message)) (acc : List (Option String) × Nat)
      (x : Option String), x ∈ acc.1 → x ∈ (l.foldl (selStep resMap) acc).1 := by
  intro l
  induction l with
  | nil => intro acc x h; simpa using h
  | cons e rest ih =>
    intro acc x h
    exact ih _ x (selStep_mono h)

theorem sel_mark_complete {resMap : List (String × Message)} {tid : String}
    {u r : Message} (hr : dictGet? resMap tid = some r) :
    ∀ (l : List (Option String × Message)) (acc : List (Option String) × Nat),
      (some tid, u) ∈ l →
      u.uuid ∈ (l.foldl (selStep resMap) acc).1 ∧
      r.uuid ∈ (l.foldl (selStep resMap) acc).1 := by
  intro l
  induction l with
  | nil => intro acc h; simp at h
  | cons e rest ih =>
    intro acc h
    rcases List.mem_cons.1 h with h' | h'
    · subst h'
      have hstep : selStep resMap acc (some tid, u) = markPair acc u r := by
        simp [selStep, hr]
      constructor
      · exact sel_fold_mono rest _ _ (hstep ▸ markPair_mem_left acc u r)
      · exact sel_fold_mono rest _ _ (hstep ▸ markPair_mem_right acc u r)
    · exact ih _ h'

theorem selStep_sound {resMap : List (String × Message)}
    {acc : List (Option String) × Nat} {e : Option String × Message}
    {x : Option String} (h : x ∈ (selStep resMap acc e).1) :
    x ∈ acc.1 ∨ ∃ tid r, e.1 = some tid ∧ dictGet? resMap tid = some r ∧
      (x = e.2.uuid ∨ x = r.uuid) := by
  rcases he : e.1 with _ | tid
  · simp only [selStep, he] at h
    exact Or.inl h
  · rcases hres : dictGet? resMap tid with _ | resMsg
    · simp only [selStep, he, hres] at h
      exact Or.inl h
    · simp only [selStep, he, hres] at h
      rcases markPair_sound h with h' | h' | h'
      · exact Or.inl h'
      · exact Or.inr ⟨tid, resMsg, rfl, hres, Or.inl h'⟩
      · exact Or.inr ⟨tid, resMsg, rfl, hres, Or.inr h'⟩

theorem sel_sound {resMap : List (String × Message)} :
    ∀ (l : List (Option String × Message)) (acc : List (Option String) × Nat)
      (x : Option String), x ∈ (l.foldl (selStep resMap) acc).1 →
      x ∈ acc.1 ∨ ∃ tid m r, (some tid, m) ∈ l ∧
        dictGet? resMap tid = some r ∧ (x = m.uuid ∨ x = r.uuid) := by
  intro l
  induction l with
  | nil => intro acc x h; exact Or.inl (by simpa using h)
  | cons e rest ih =>
    intro acc x h
    rcases ih _ x h with h' | h'
    · rcases selStep_sound h' with h'' | ⟨tid, r, he, hres, hx⟩
      · exact Or.inl h''
      · refine Or.inr ⟨tid, e.2, r, ?_, hres, hx⟩
        have : (some tid, e.2) = e := by
          rw [← he]
        rw [this]
        exact List.mem_cons_self _ _
    · rcases h' with ⟨tid, m, r, hmem, hres, hx⟩
      exact Or.inr ⟨tid, m, r, List.mem_cons_of_mem _ hmem, hres, hx⟩

/-! ### Lemmas about Step 3 (rebuild and repair) -/

theorem repairMsg_fst (removed : List (Option String))
    (um : List (String × Message)) (fuel : Nat) (m : Message) :
    (repairMsg removed um fuel m).1
      = { m with parentUuid := chainWalk removed um fuel m.parentUuid } := by
  unfold repairMsg
  by_cases h : chainWalk removed um fuel m.parentUuid = m.parentUuid
  · simp only [if_pos h, h]
    cases m
    rfl
  · simp only [if_neg h]

theorem repairMsg_uuid (removed : List (Option String))
    (um : List (String × Message)) (fuel : Nat) (m : Message) :
    (repairMsg removed um fuel m).1.uuid = m.uuid := by
  rw [repairMsg_fst]

theorem rebuild_eq (removed : List (Option String))
    (um : List (String × Message)) (fuel : Nat) :
    ∀ l : List Message, (rebuildMessages removed um fuel l).1
      = (l.filter (fun m => !(decide (m.uuid ∈ removed)))).map
          (fun m => (repairMsg removed um fuel m).1) := by
  intro l
  induction l with
  | nil => rfl
  | cons msg rest ih =>
    by_cases h : msg.uuid ∈ removed
    · simp [rebuildMessages, h, List.filter_cons, ih]
    · simp [rebuildMessages, h, List.filter_cons, ih]

theorem mem_rebuild_not_removed {removed : List (Option String)}
    {um : List (String × Message)} {fuel : Nat} {l : List Message} {s : Message}
    (h : s ∈ (rebuildMessages removed um fuel l).1) : s.uuid ∉ removed := by
  rw [rebuild_eq] at h
  rcases List.mem_map.1 h with ⟨m, hm, rfl⟩
  have := (List.mem_filter.1 hm).2
  rw [repairMsg_uuid]
  simpa using this

theorem mem_rebuild_of_mem {removed : List (Option String)}
    {um : List (String × Message)} {fuel : Nat} {l : List Message} {m : Message}
    (hm : m ∈ l) (hnot : m.uuid ∉ removed) :
    (repairMsg removed um fuel m).1 ∈ (rebuildMessages removed um fuel l).1 := by
  rw [rebuild_eq]
  exact List.mem_map_of_mem _ (List.mem_filter.2 ⟨hm, by simpa using hnot⟩)

theorem clean_messages (msgs : List Message) :
    (clean msgs).messages
      = (rebuildMessages (removedInfo msgs).1 (buildUuidMap msgs)
          ((removedInfo msgs).1.length) msgs).1 := rfl

/-! ### The repair walk: termination under acyclicity

Acyclicity of the parent relation is expressed as the existence of a
topological rank: every record ranks strictly above its parent.  Over the
finite record graph of one transcript this is the standard equivalent of
the absence of parent cycles. -/

/-- The parent relation of the whole input is acyclic (ranked). -/
def RankedAll (msgs : List Message) (rank : String → Nat) : Prop :=
  ∀ m ∈ msgs, ∀ u p, m.uuid = some u → m.parentUuid = some p → rank p < rank u

/-- The parent relation is acyclic across removed records: the rank needs
to drop only at records whose uuid is in the removal-mark set, which is
all the walk ever steps through. -/
def RankedRemoved (msgs : List Message) (rank : String → Nat) : Prop :=
  ∀ m ∈ msgs, ∀ u p, m.uuid = some u → some u ∈ (removedInfo msgs).1 →
    m.parentUuid = some p → rank p < rank u

theorem RankedAll.toRemoved {msgs : List Message} {rank : String → Nat}
    (h : RankedAll msgs rank) : RankedRemoved msgs rank :=
  fun m hm u p hu _ hp => h m hm u p hu hp

/-- Rank of a walk state: `none` (root) sits strictly below every uuid. -/
def rankO (rank : String → Nat) : Option String → Nat
  | none => 0
  | some u => rank u + 1

theorem chainWalk_done_fix {removed : List (Option String)}
    {um : List (String × Message)} {cur : Option String}
    (h : walkStep removed um cur = none) :
    ∀ f, chainWalk removed um f cur = cur := by
  intro f
  cases f with
  | zero => rfl
  | succ f => simp [chainWalk, h]

theorem chainWalk_step {removed : List (Option String)}
    {um : List (String × Message)} {cur nxt : Option String}
    (h : walkStep removed um cur = some nxt) (f : Nat) :
    chainWalk removed um (f + 1) cur = chainWalk removed um f nxt := by
  simp [chainWalk, h]

theorem chainWalk_add (removed : List (Option String))
    (um : List (String × Message)) :
    ∀ (a b : Nat) (cur : Option String),
      chainWalk removed um (a + b) cur
        = chainWalk removed um b (chainWalk removed um a cur) := by
  intro a
  induction a with
  | zero => intro b cur; rw [Nat.zero_add]; rfl
  | succ a ih =>
    intro b cur
    rcases hstep : walkStep removed um cur with _ | nxt
    · simp only [chainWalk_done_fix hstep]
    · have : a + 1 + b = (a + b) + 1 := by omega
      rw [this, chainWalk_step hstep, chainWalk_step hstep, ih]

theorem walkStep_mem {removed : List (Option String)}
    {um : List (String × Message)} {cur : Option String}
    (h : walkStep removed um cur ≠ none) : cur ∈ removed := by
  by_contra hmem
  exact h (by simp [walkStep, hmem])

theorem walkStep_none_of_not_mem {removed : List (Option String)}
    {um : List (String × Message)} {cur : Option String}
    (h : cur ∉ removed) : walkStep removed um cur = none := by
  simp [walkStep, h]

theorem walkStep_rank {msgs : List Message} {removed : List (Option String)}
    {um : List (String × Message)} {rank : String → Nat}
    (Hum : ∀ u m, dictGet? um u = some m → m ∈ msgs ∧ m.uuid = some u)
    (Hdesc : ∀ m ∈ msgs, ∀ u p, m.uuid = some u → some u ∈ removed →
      m.parentUuid = some p → rank p < rank u)
    {cur nxt : Option String} (h : walkStep removed um cur = some nxt) :
    rankO rank nxt < rankO rank cur := by
  by_cases hmem : cur ∈ removed
  · rw [walkStep, if_pos hmem] at h
    rcases hl : lookupCur um cur with _ | pm
    · rw [hl] at h
      cases h
    · rw [hl] at h
      injection h with h
      subst h
      rcases cur with _ | u
      · simp [lookupCur] at hl
      · rw [lookupCur, Option.some_bind] at hl
        obtain ⟨hmemM, huuid⟩ := Hum u pm hl
        rcases hp : pm.parentUuid with _ | p
        · simp [rankO]
        · have hlt := Hdesc pm hmemM u p huuid hmem hp
          simp only [rankO]
          omega
  · rw [walkStep_none_of_not_mem hmem] at h
    cases h

theorem chainWalk_notdone_anti {removed : List (Option String)}
    {um : List (String × Message)} {cur : Option String} {f : Nat}
    (h : walkStep removed um (chainWalk removed um f cur) ≠ none)
    {k : Nat} (hk : k ≤ f) :
    walkStep removed um (chainWalk removed um k cur) ≠ none := by
  intro hdone
  apply h
  have hsplit : f = k + (f - k) := by omega
  rw [hsplit, chainWalk_add, chainWalk_done_fix hdone]
  exact hdone

theorem chainWalk_rank_le {msgs : List Message}
    {removed : List (Option String)} {um : List (String × Message)}
    {rank : String → Nat}
    (Hum : ∀ u m, dictGet? um u = some m → m ∈ msgs ∧ m.uuid = some u)
    (Hdesc : ∀ m ∈ msgs, ∀ u p, m.uuid = some u → some u ∈ removed →
      m.parentUuid = some p → rank p < rank u) :
    ∀ (f : Nat) (cur : Option String),
      walkStep removed um (chainWalk removed um f cur) ≠ none →
      rankO rank (chainWalk removed um f cur) + f ≤ rankO rank cur := by
  intro f
  induction f with
  | zero => intro cur _; simp [chainWalk]
  | succ f ih =>
    intro cur h
    have h0 : walkStep removed um cur ≠ none := by
      have := chainWalk_notdone_anti h (Nat.zero_le (f + 1))
      simpa [chainWalk] using this
    rcases hstep : walkStep removed um cur with _ | nxt
    · exact absurd hstep h0
    · rw [chainWalk_step hstep] at h ⊢
      have hr := walkStep_rank Hum Hdesc hstep
      have hle := ih nxt h
      omega

theorem chainWalk_done {msgs : List Message}
    {removed : List (Option String)} {um : List (String × Message)}
    {rank : String → Nat}
    (Hum : ∀ u m, dictGet? um u = some m → m ∈ msgs ∧ m.uuid = some u)
    (Hdesc : ∀ m ∈ msgs, ∀ u p, m.uuid = some u → some u ∈ removed →
      m.parentUuid = some p → rank p < rank u)
    (cur : Option String) :
    walkStep removed um (chainWalk removed um removed.length cur) = none := by
  by_contra h
  have hbound : ∀ k ≤ removed.length,
      walkStep removed um (chainWalk removed um k cur) ≠ none :=
    fun k hk => chainWalk_notdone_anti h hk
  have hstrict : ∀ i j, i < j → j ≤ removed.length →
      rankO rank (chainWalk removed um j cur)
        < rankO rank (chainWalk removed um i cur) := by
    intro i j hij hj
    have hnd := hbound j hj
    have hsplit : j = i + (j - i) := by omega
    rw [hsplit, chainWalk_add] at hnd ⊢
    have := chainWalk_rank_le Hum Hdesc (j - i) (chainWalk removed um i cur) hnd
    omega
  have hnodup :
      (((List.range (removed.length + 1)).map
        (fun k => chainWalk removed um k cur))).Nodup := by
    refine List.Nodup.map_on ?_ (List.nodup_range _)
    intro a ha b hb hab
    have ha' := Nat.lt_succ_iff.1 (List.mem_range.1 ha)
    have hb' := Nat.lt_succ_iff.1 (List.mem_range.1 hb)
    by_contra hne
    rcases Nat.lt_or_ge a b with hlt | hge
    · have := hstrict a b hlt hb'
      rw [hab] at this
      omega
    · have hlt : b < a := by omega
      have := hstrict b a hlt ha'
      rw [hab] at this
      omega
  have hsub :
      ((List.range (removed.length + 1)).map
        (fun k => chainWalk removed um k cur)) ⊆ removed := by
    intro s hs
    rcases List.mem_map.1 hs with ⟨k, hk, rfl⟩
    have hk' := Nat.lt_succ_iff.1 (List.mem_range.1 hk)
    exact walkStep_mem (hbound k hk')
  have hlen := (hnodup.subperm hsub).length_le
  simp only [List.length_map, List.length_range] at hlen
  omega

theorem chainWalk_stable {removed : List (Option String)}
    {um : List (String × Message)} {cur : Option String} {f : Nat}
    (h : walkStep removed um (chainWalk removed um f cur) = none) :
    ∀ g, f ≤ g → chainWalk removed um g cur = chainWalk removed um f cur := by
  intro g hg
  have hsplit : g = f + (g - f) := by omega
  rw [hsplit, chainWalk_add, chainWalk_done_fix h]

theorem uuidMap_lookup_inv (msgs : List Message) :
    ∀ (u : String) (m : Message), dictGet? (buildUuidMap msgs) u = some m →
      m ∈ msgs ∧ m.uuid = some u :=
  fun _ _ h => ⟨(uuidMap_lookup h).1, (uuidMap_lookup h).2.1⟩

theorem chainWalk_nil (um : List (String × Message)) :
    ∀ (f : Nat) (cur : Option String), chainWalk [] um f cur = cur := by
  intro f cur
  exact chainWalk_done_fix (walkStep_none_of_not_mem (by simp)) f

theorem rebuild_empty_removed (um : List (String × Message)) (f : Nat) :
    ∀ l : List Message, rebuildMessages [] um f l = (l, 0) := by
  intro l
  induction l with
  | nil => rfl
  | cons m rest ih =>
    have hrep : repairMsg [] um f m = (m, false) := by
      simp [repairMsg, chainWalk_nil]
    simp [rebuildMessages, ih, hrep]

theorem walkStep_none_cases {removed : List (Option String)}
    {um : List (String × Message)} {cur : Option String}
    (h : walkStep removed um cur = none) :
    cur ∉ removed ∨ lookupCur um cur = none := by
  by_cases hmem : cur ∈ removed
  · rw [walkStep, if_pos hmem] at h
    rcases hl : lookupCur um cur with _ | pm
    · exact Or.inr rfl
    · rw [hl] at h
      cases h
  · exact Or.inl hmem

/-! ### Claim theorems -/

/-- C10: the ancestor-repair walk of `clean`, embedded as the fuel-indexed
`chainWalk` run on the removal set and full uuid index, is total under the
precondition that the parent relation is acyclic (ranked) across removed
records: with the fuel `clean` uses (the size of the removal set) it
reaches a stopped state of the `while` loop, and additional fuel does not
change the result.  Moreover there is a concrete input whose removed
records form a parent cycle on which the walk never reaches a stopped
state, so the acyclicity precondition is required as a hypothesis. -/
theorem claim_C10_walk_total (msgs : List Message) (rank : String → Nat)
    (start : Option String) (H : RankedRemoved msgs rank) :
    walkStep (removedInfo msgs).1 (buildUuidMap msgs)
      (chainWalk (removedInfo msgs).1 (buildUuidMap msgs)
        ((removedInfo msgs).1.length) start) = none ∧
    (∀ g, (removedInfo msgs).1.length ≤ g →
      chainWalk (removedInfo msgs).1 (buildUuidMap msgs) g start
        = chainWalk (removedInfo msgs).1 (buildUuidMap msgs)
            ((removedInfo msgs).1.length) start) ∧
    (∃ (msgs2 : List Message) (start2 : Option String), ∀ fuel,
      walkStep (removedInfo msgs2).1 (buildUuidMap msgs2)
        (chainWalk (removedInfo msgs2).1 (buildUuidMap msgs2) fuel start2)
        ≠ none) := by
  have hdone := chainWalk_done (uuidMap_lookup_inv msgs) H start
  refine ⟨hdone, fun g hg => chainWalk_stable hdone g hg, ?_⟩
  refine ⟨[⟨some "a", some "a", [some "x"], none⟩,
           ⟨some "b", none, [], some "x"⟩], some "a", ?_⟩
  have hs : walkStep
      (removedInfo [⟨some "a", some "a", [some "x"], none⟩,
        ⟨some "b", none, [], some "x"⟩]).1
      (buildUuidMap [⟨some "a", some "a", [some "x"], none⟩,
        ⟨some "b", none, [], some "x"⟩]) (some "a")
      = some (some "a") := by decide
  have hfix : ∀ f, chainWalk
      (removedInfo [⟨some "a", some "a", [some "x"], none⟩,
        ⟨some "b", none, [], some "x"⟩]).1
      (buildUuidMap [⟨some "a", some "a", [some "x"], none⟩,
        ⟨some "b", none, [], some "x"⟩]) f (some "a") = some "a" := by
    intro f
    induction f with
    | zero => rfl
    | succ f ih => rw [chainWalk_step hs, ih]
  intro fuel
  rw [hfix fuel, hs]
  simp

/-- Witness for C10 on Scenario B's four-record transcript, ranked by
depth, starting the walk at the removed record `c`. -/
theorem claim_C10_walk_total_witness :
    walkStep (removedInfo [⟨some "a", none, [], none⟩,
        ⟨some "b", some "a", [some "x"], none⟩,
        ⟨some "c", some "b", [], some "x"⟩,
        ⟨some "d", some "c", [], none⟩]).1
      (buildUuidMap [⟨some "a", none, [], none⟩,
        ⟨some "b", some "a", [some "x"], none⟩,
        ⟨some "c", some "b", [], some "x"⟩,
        ⟨some "d", some "c", [], none⟩])
      (chainWalk (removedInfo [⟨some "a", none, [], none⟩,
          ⟨some "b", some "a", [some "x"], none⟩,
          ⟨some "c", some "b", [], some "x"⟩,
          ⟨some "d", some "c", [], none⟩]).1
        (buildUuidMap [⟨some "a", none, [], none⟩,
          ⟨some "b", some "a", [some "x"], none⟩,
          ⟨some "c", some "b", [], some "x"⟩,
          ⟨some "d", some "c", [], none⟩])
        ((removedInfo [⟨some "a", none, [], none⟩,
          ⟨some "b", some "a", [some "x"], none⟩,
          ⟨some "c", some "b", [], some "x"⟩,
          ⟨some "d", some "c", [], none⟩]).1.length) (some "c")) = none ∧
    (∀ g, (removedInfo [⟨some "a", none, [], none⟩,
        ⟨some "b", some "a", [some "x"], none⟩,
        ⟨some "c", some "b", [], some "x"⟩,
        ⟨some "d", some "c", [], none⟩]).1.length ≤ g →
      chainWalk (removedInfo [⟨some "a", none, [], none⟩,
          ⟨some "b", some "a", [some "x"], none⟩,
          ⟨some "c", some "b", [], some "x"⟩,
          ⟨some "d", some "c", [], none⟩]).1
        (buildUuidMap [⟨some "a", none, [], none⟩,
          ⟨some "b", some "a", [some "x"], none⟩,
          ⟨some "c", some "b", [], some "x"⟩,
          ⟨some "d", some "c", [], none⟩]) g (some "c")
        = chainWalk (removedInfo [⟨some "a", none, [], none⟩,
            ⟨some "b", some "a", [some "x"], none⟩,
            ⟨some "c", some "b", [], some "x"⟩,
            ⟨some "d", some "c", [], none⟩]).1
          (buildUuidMap [⟨some "a", none, [], none⟩,
            ⟨some "b", some "a", [some "x"], none⟩,
            ⟨some "c", some "b", [], some "x"⟩,
            ⟨some "d", some "c", [], none⟩])
          ((removedInfo [⟨some "a", none, [], none⟩,
            ⟨some "b", some "a", [some "x"], none⟩,
            ⟨some "c", some "b", [], some "x"⟩,
            ⟨some "d", some "c", [], none⟩]).1.length) (some "c")) ∧
    (∃ (msgs2 : List Message) (start2 : Option String), ∀ fuel,
      walkStep (removedInfo msgs2).1 (buildUuidMap msgs2)
        (chainWalk (removedInfo msgs2).1 (buildUuidMap msgs2) fuel start2)
        ≠ none) :=
  claim_C10_walk_total
    [⟨some "a", none, [], none⟩, ⟨some "b", some "a", [some "x"], none⟩,
     ⟨some "c", some "b", [], some "x"⟩, ⟨some "d", some "c", [], none⟩]
    (fun u => if u = "d" then 3 else if u = "c" then 2 else
      if u = "b" then 1 else 0)
    (some "c")
    (by
      intro m hm u p h1 h2 h3
      fin_cases hm <;> simp_all <;> subst_vars <;> decide)

/-- C2 (amended): on an input with acyclic parent relation and unique
present ids, every survivor's final parent id is `none` (root), or the id
of a record that is also a survivor, or an id that does not resolve in the
full id index (the walk froze at the last resolved id because no further
ancestor record exists; that id may also simply be the record's original
dangling parent).  The original claim's third case demanded the frozen id
to be a removed record's id, which the dangling-parent counterexample
refutes. -/
theorem claim_C2_parent_resolved (msgs : List Message) (rank : String → Nat)
    (Hids : ∀ m ∈ msgs, m.uuid ≠ none ∧ m.uuid ≠ some "")
    (Huniq : ∀ m ∈ msgs, ∀ m' ∈ msgs, m.uuid = m'.uuid → m = m')
    (Hrank : RankedAll msgs rank) :
    ∀ s ∈ (clean msgs).messages,
      s.parentUuid = none ∨
      (∃ t ∈ (clean msgs).messages, t.uuid = s.parentUuid) ∨
      lookupCur (buildUuidMap msgs) s.parentUuid = none := by
  intro s hs
  rw [clean_messages, rebuild_eq] at hs
  rcases List.mem_map.1 hs with ⟨m, hmf, rfl⟩
  have hm : m ∈ msgs := (List.mem_filter.1 hmf).1
  have hpar : ((repairMsg (removedInfo msgs).1 (buildUuidMap msgs)
      ((removedInfo msgs).1.length) m).1).parentUuid
      = chainWalk (removedInfo msgs).1 (buildUuidMap msgs)
          ((removedInfo msgs).1.length) m.parentUuid := by
    rw [repairMsg_fst]
  rw [hpar]
  have hdone := chainWalk_done (uuidMap_lookup_inv msgs)
    Hrank.toRemoved m.parentUuid
  rcases hl : lookupCur (buildUuidMap msgs)
      (chainWalk (removedInfo msgs).1 (buildUuidMap msgs)
        ((removedInfo msgs).1.length) m.parentUuid) with _ | pm
  · exact Or.inr (Or.inr rfl)
  · have hnot : chainWalk (removedInfo msgs).1 (buildUuidMap msgs)
        ((removedInfo msgs).1.length) m.parentUuid ∉ (removedInfo msgs).1 := by
      rcases walkStep_none_cases hdone with h' | h'
      · exact h'
      · rw [h'] at hl
        cases hl
    rcases hcur : chainWalk (removedInfo msgs).1 (buildUuidMap msgs)
        ((removedInfo msgs).1.length) m.parentUuid with _ | u
    · exact Or.inl rfl
    · rw [hcur] at hl
      rw [lookupCur, Option.some_bind] at hl
      obtain ⟨hpmem, hpuuid⟩ := uuidMap_lookup_inv msgs u pm hl
      have hnotuuid : pm.uuid ∉ (removedInfo msgs).1 := by
        rw [hpuuid, ← hcur]
        exact hnot
      refine Or.inr (Or.inl ⟨(repairMsg (removedInfo msgs).1
        (buildUuidMap msgs) ((removedInfo msgs).1.length) pm).1, ?_, ?_⟩)
      · rw [clean_messages]
        exact mem_rebuild_of_mem hpmem hnotuuid
      · rw [repairMsg_uuid, hpuuid]

/-- Counterexample to C2 as stated: the single-record input
`[{uuid a, parent zzz}]` has an acyclic parent relation and unique present
ids, yet its surviving record's parent id `zzz` is not `none`, is not the
id of any survivor, and is not a removed id at which the walk froze (the
removal set is empty) - the claim's three cases all fail. -/
theorem claim_C2_counterexample :
    ((∀ m ∈ ([⟨some "a", some "zzz", [], none⟩] : List Message),
        m.uuid ≠ none ∧ m.uuid ≠ some "") ∧
     (∀ m ∈ ([⟨some "a", some "zzz", [], none⟩] : List Message),
        ∀ m' ∈ ([⟨some "a", some "zzz", [], none⟩] : List Message),
        m.uuid = m'.uuid → m = m') ∧
     RankedAll [⟨some "a", some "zzz", [], none⟩]
       (fun u => if u = "a" then 1 else 0)) ∧
    ∃ s ∈ (clean [⟨some "a", some "zzz", [], none⟩]).messages,
      ¬(s.parentUuid = none ∨
        (∃ t ∈ (clean [⟨some "a", some "zzz", [], none⟩]).messages,
          t.uuid = s.parentUuid) ∨
        s.parentUuid ∈ (removedInfo [⟨some "a", some "zzz", [], none⟩]).1) := by
  refine ⟨⟨by decide, by decide, ?_⟩, ?_⟩
  · intro m hm u p h1 h2
    fin_cases hm
    simp_all
    subst_vars
    decide
  · exact ⟨⟨some "a", some "zzz", [], none⟩, by decide, by decide⟩

/-- Witness for the amended C2 on Scenario B's four-record transcript, at
the concrete survivor F1 (its parent already rewritten to `a`). -/
theorem claim_C2_parent_resolved_witness :
    (⟨some "d", some "a", [], none⟩ : Message).parentUuid = none ∨
    (∃ t ∈ (clean [⟨some "a", none, [], none⟩,
        ⟨some "b", some "a", [some "x"], none⟩,
        ⟨some "c", some "b", [], some "x"⟩,
        ⟨some "d", some "c", [], none⟩]).messages,
      t.uuid = (⟨some "d", some "a", [], none⟩ : Message).parentUuid) ∨
    lookupCur (buildUuidMap [⟨some "a", none, [], none⟩,
        ⟨some "b", some "a", [some "x"], none⟩,
        ⟨some "c", some "b", [], some "x"⟩,
        ⟨some "d", some "c", [], none⟩])
      (⟨some "d", some "a", [], none⟩ : Message).parentUuid = none :=
  claim_C2_parent_resolved
    [⟨some "a", none, [], none⟩, ⟨some "b", some "a", [some "x"], none⟩,
     ⟨some "c", some "b", [], some "x"⟩, ⟨some "d", some "c", [], none⟩]
    (fun u => if u = "d" then 3 else if u = "c" then 2 else
      if u = "b" then 1 else 0)
    (by decide) (by decide)
    (by
      intro m hm u p h1 h2
      fin_cases hm <;> simp_all <;> subst_vars <;> decide)
    ⟨some "d", some "a", [], none⟩ (by decide)

/-- C1: for every input and every request identifier that is a key of both
the issuer index (`tool_use_map`) and the responder index
(`tool_result_map`) built by `clean`, the record indexed as issuer and the
record indexed as responder are both absent from the survivor sequence. -/
theorem claim_C1_pair_removed (msgs : List Message) (tid : String)
    (u r : Message)
    (hu : dictGet? (buildToolUseMap msgs) (some tid) = some u)
    (hr : dictGet? (buildToolResultMap msgs) tid = some r) :
    u ∉ (clean msgs).messages ∧ r ∉ (clean msgs).messages := by
  have hmark := sel_mark_complete hr (buildToolUseMap msgs) ([], 0)
    (dictGet?_mem hu)
  constructor
  · intro hin
    rw [clean_messages] at hin
    exact mem_rebuild_not_removed hin hmark.1
  · intro hin
    rw [clean_messages] at hin
    exact mem_rebuild_not_removed hin hmark.2

/-- Witness for C1 at a concrete two-record transcript with one matched
pair `x`. -/
theorem claim_C1_pair_removed_witness :
    (⟨some "u1", none, [some "x"], none⟩ : Message) ∉
      (clean [⟨some "u1", none, [some "x"], none⟩,
              ⟨some "u2", none, [], some "x"⟩]).messages ∧
    (⟨some "u2", none, [], some "x"⟩ : Message) ∉
      (clean [⟨some "u1", none, [some "x"], none⟩,
              ⟨some "u2", none, [], some "x"⟩]).messages :=
  claim_C1_pair_removed
    [⟨some "u1", none, [some "x"], none⟩, ⟨some "u2", none, [], some "x"⟩]
    "x" ⟨some "u1", none, [some "x"], none⟩ ⟨some "u2", none, [], some "x"⟩
    (by decide) (by decide)

theorem parseItem_dict_ok (acc : List PyVal × Option PyVal)
    (es : List (String × PyVal)) :
    ∃ acc', parseItem acc (.vdict es) = .ok acc' := by
  rcases hty : (pyLookup es "type").getD PyVal.vnull with _ | b | n | s | xs | es2
  · exact ⟨acc, by simp [parseItem, hty]⟩
  · exact ⟨acc, by simp [parseItem, hty]⟩
  · exact ⟨acc, by simp [parseItem, hty]⟩
  · by_cases h1 : s = "tool_use"
    · exact ⟨(acc.1 ++ [(pyLookup es "id").getD .vnull], acc.2),
        by simp [parseItem, hty, h1]⟩
    · by_cases h2 : s = "tool_result"
      · by_cases h3 : pyTruthy ((pyLookup es "tool_use_id").getD .vnull)
        · exact ⟨(acc.1, some ((pyLookup es "tool_use_id").getD .vnull)),
            by simp [parseItem, hty, h1, h2, h3]⟩
        · exact ⟨acc, by simp [parseItem, hty, h1, h2, h3]⟩
      · exact ⟨acc, by simp [parseItem, hty, h1, h2]⟩
  · exact ⟨acc, by simp [parseItem, hty]⟩
  · exact ⟨acc, by simp [parseItem, hty]⟩

theorem foldlM_parseItem_ok :
    ∀ (xs : List PyVal) (acc : List PyVal × Option PyVal),
      (∀ it ∈ xs, ∃ ies, it = PyVal.vdict ies) →
      ∃ r, xs.foldlM parseItem acc = .ok r := by
  intro xs
  induction xs with
  | nil => intro acc _; exact ⟨acc, rfl⟩
  | cons it rest ih =>
    intro acc hall
    obtain ⟨ies, rfl⟩ := hall it (List.mem_cons_self _ _)
    obtain ⟨acc', hacc'⟩ := parseItem_dict_ok acc ies
    obtain ⟨r, hr⟩ := ih acc'
      (fun it' h => hall it' (List.mem_cons_of_mem _ h))
    refine ⟨r, ?_⟩
    rw [List.foldlM_cons, hacc']
    simpa using hr

/-- C5 (amended): constructing the record view never raises provided the
`message` field, when present, is itself a mapping and the content, when
a list, holds only mappings; and whenever the content is not a list or
defaults to the empty list (absent `message` or absent `content`), the
view has empty tool ids and an unset response ref.  The original claim -
never raises on any mapping - fails: a non-mapping `message` value or a
non-mapping content list item raises `AttributeError` (see the
counterexample). -/
theorem claim_C5_record_view_total (data : List (String × PyVal))
    (Hmsg : ∀ v, pyLookup data "message" = some v →
      ∃ es, v = PyVal.vdict es)
    (Hitems : ∀ es xs, pyLookup data "message" = some (PyVal.vdict es) →
      (pyLookup es "content").getD (PyVal.vlist []) = PyVal.vlist xs →
      ∀ it ∈ xs, ∃ ies, it = PyVal.vdict ies) :
    ∃ m : RawMsg, mkMessage data = .ok m ∧
      ((∀ xs, m.content ≠ PyVal.vlist xs) →
        m.toolIds = [] ∧ m.toolUseIdRef = none) ∧
      (m.content = PyVal.vlist [] →
        m.toolIds = [] ∧ m.toolUseIdRef = none) := by
  rcases hmv : pyLookup data "message" with _ | v
  · refine ⟨⟨(pyLookup data "uuid").getD .vnull,
      (pyLookup data "parentUuid").getD .vnull,
      (pyLookup data "type").getD .vnull, .vlist [], none, []⟩, ?_,
      fun _ => ⟨rfl, rfl⟩, fun _ => ⟨rfl, rfl⟩⟩
    simp only [mkMessage, hmv, pyDotGet, pyLookup, Option.getD_none]
    rfl
  · obtain ⟨es, rfl⟩ := Hmsg v hmv
    rcases hc : (pyLookup es "content").getD (PyVal.vlist []) with
      _ | b | n | s | xs | es2
    · exact ⟨⟨(pyLookup data "uuid").getD .vnull,
        (pyLookup data "parentUuid").getD .vnull,
        (pyLookup data "type").getD .vnull, .vnull, none, []⟩,
        by simp [mkMessage, hmv, pyDotGet, hc],
        fun _ => ⟨rfl, rfl⟩, fun _ => ⟨rfl, rfl⟩⟩
    · exact ⟨⟨(pyLookup data "uuid").getD .vnull,
        (pyLookup data "parentUuid").getD .vnull,
        (pyLookup data "type").getD .vnull, .vbool b, none, []⟩,
        by simp [mkMessage, hmv, pyDotGet, hc],
        fun _ => ⟨rfl, rfl⟩, fun _ => ⟨rfl, rfl⟩⟩
    · exact ⟨⟨(pyLookup data "uuid").getD .vnull,
        (pyLookup data "parentUuid").getD .vnull,
        (pyLookup data "type").getD .vnull, .vnum n, none, []⟩,
        by simp [mkMessage, hmv, pyDotGet, hc],
        fun _ => ⟨rfl, rfl⟩, fun _ => ⟨rfl, rfl⟩⟩
    · exact ⟨⟨(pyLookup data "uuid").getD .vnull,
        (pyLookup data "parentUuid").getD .vnull,
        (pyLookup data "type").getD .vnull, .vstr s, none, []⟩,
        by simp [mkMessage, hmv, pyDotGet, hc],
        fun _ => ⟨rfl, rfl⟩, fun _ => ⟨rfl, rfl⟩⟩
    · rcases xs with _ | ⟨it0, xs'⟩
      · refine ⟨⟨(pyLookup data "uuid").getD .vnull,
          (pyLookup data "parentUuid").getD .vnull,
          (pyLookup data "type").getD .vnull, .vlist [], none, []⟩, ?_,
          fun _ => ⟨rfl, rfl⟩, fun _ => ⟨rfl, rfl⟩⟩
        simp only [mkMessage, hmv, pyDotGet, hc, Option.getD_some]
        rfl
      · obtain ⟨r, hr⟩ := foldlM_parseItem_ok (it0 :: xs') ([], none)
          (Hitems es (it0 :: xs') hmv hc)
        refine ⟨⟨(pyLookup data "uuid").getD .vnull,
          (pyLookup data "parentUuid").getD .vnull,
          (pyLookup data "type").getD .vnull, .vlist (it0 :: xs'),
          r.2, r.1⟩, ?_, ?_, ?_⟩
        · simp [mkMessage, hmv, pyDotGet, hc, hr]
        · intro h
          exact absurd rfl (h (it0 :: xs'))
        · intro h
          simp at h
    · exact ⟨⟨(pyLookup data "uuid").getD .vnull,
        (pyLookup data "parentUuid").getD .vnull,
        (pyLookup data "type").getD .vnull, .vdict es2, none, []⟩,
        by simp [mkMessage, hmv, pyDotGet, hc],
        fun _ => ⟨rfl, rfl⟩, fun _ => ⟨rfl, rfl⟩⟩

/-- Counterexample to C5 as stated: a mapping whose `message` value is a
plain string raises (`.get` on a non-mapping), and so does a mapping
whose content list holds a non-mapping item (`item.get` in
`_parse_content`). -/
theorem claim_C5_counterexample :
    mkMessage [("message", PyVal.vstr "m")] = .error () ∧
    mkMessage [("message", PyVal.vdict
      [("content", PyVal.vlist [PyVal.vstr "hello"])])] = .error () :=
  ⟨rfl, rfl⟩

/-- Witness for the amended C5: a record whose content is a plain string
yields the view with no tool ids and no response ref. -/
theorem claim_C5_record_view_total_witness :
    ∃ m : RawMsg, mkMessage [("uuid", PyVal.vstr "u"),
      ("message", PyVal.vdict [("content", PyVal.vstr "nope")])] = .ok m ∧
      ((∀ xs, m.content ≠ PyVal.vlist xs) →
        m.toolIds = [] ∧ m.toolUseIdRef = none) ∧
      (m.content = PyVal.vlist [] →
        m.toolIds = [] ∧ m.toolUseIdRef = none) :=
  claim_C5_record_view_total
    [("uuid", PyVal.vstr "u"),
     ("message", PyVal.vdict [("content", PyVal.vstr "nope")])]
    (by
      intro v h
      simp [pyLookup] at h
      exact ⟨[("content", PyVal.vstr "nope")], h.symm⟩)
    (by
      intro es xs h1 h2
      simp [pyLookup] at h1
      rw [← h1] at h2
      simp [pyLookup] at h2)

theorem repairMsg_toolIds (removed : List (Option String))
    (um : List (String × Message)) (fuel : Nat) (m : Message) :
    (repairMsg removed um fuel m).1.toolIds = m.toolIds := by
  rw [repairMsg_fst]

theorem repairMsg_ref (removed : List (Option String))
    (um : List (String × Message)) (fuel : Nat) (m : Message) :
    (repairMsg removed um fuel m).1.toolUseIdRef = m.toolUseIdRef := by
  rw [repairMsg_fst]

theorem mem_clean_elim {msgs : List Message} {s : Message}
    (h : s ∈ (clean msgs).messages) :
    ∃ m ∈ msgs, m.uuid ∉ (removedInfo msgs).1 ∧
      s = (repairMsg (removedInfo msgs).1 (buildUuidMap msgs)
        ((removedInfo msgs).1.length) m).1 := by
  rw [clean_messages, rebuild_eq] at h
  rcases List.mem_map.1 h with ⟨m, hmf, rfl⟩
  obtain ⟨hm, hflt⟩ := List.mem_filter.1 hmf
  exact ⟨m, hm, by simpa using hflt, rfl⟩

/-- C4 (amended): a record lacking a uuid is never removed and survives -
with all fields except possibly the parent reference unchanged, since it
undergoes the same repair walk as any survivor - provided no matched
pair's issuer or responder lacks a uuid (otherwise Python's `None` enters
the removal set and every uuid-less record is dropped: see the
counterexample). -/
theorem claim_C4_uuidless_survives (msgs : List Message) (I : Message)
    (hmem : I ∈ msgs) (hI : I.uuid = none)
    (hnone : none ∉ (removedInfo msgs).1) :
    I.uuid ∉ (removedInfo msgs).1 ∧
    ∃ p, { I with parentUuid := p } ∈ (clean msgs).messages := by
  have hnot : I.uuid ∉ (removedInfo msgs).1 := by
    rw [hI]
    exact hnone
  refine ⟨hnot, chainWalk (removedInfo msgs).1 (buildUuidMap msgs)
    ((removedInfo msgs).1.length) I.parentUuid, ?_⟩
  rw [clean_messages]
  have hin := @mem_rebuild_of_mem (removedInfo msgs).1 (buildUuidMap msgs)
    ((removedInfo msgs).1.length) msgs I hmem hnot
  rwa [repairMsg_fst] at hin

/-- Counterexample to C4 as stated: a uuid-less record that issues a
matched request identifier is marked (Python `None` enters the removal
set) and is absent from the survivor sequence - here the survivor
sequence is empty. -/
theorem claim_C4_counterexample :
    (⟨none, none, [some "x"], none⟩ : Message).uuid = none ∧
    (⟨none, none, [some "x"], none⟩ : Message).uuid
      ∈ (removedInfo [⟨none, none, [some "x"], none⟩,
          ⟨some "b", none, [], some "x"⟩]).1 ∧
    (clean [⟨none, none, [some "x"], none⟩,
        ⟨some "b", none, [], some "x"⟩]).messages = [] := by
  decide

/-- Witness for the amended C4: a lone uuid-less record survives. -/
theorem claim_C4_uuidless_survives_witness :
    (⟨none, some "q", [], none⟩ : Message).uuid
      ∉ (removedInfo [⟨none, some "q", [], none⟩]).1 ∧
    ∃ p, { (⟨none, some "q", [], none⟩ : Message) with parentUuid := p }
      ∈ (clean [⟨none, some "q", [], none⟩]).messages :=
  claim_C4_uuidless_survives [⟨none, some "q", [], none⟩]
    ⟨none, some "q", [], none⟩ (by decide) (by decide) (by decide)

/-- C7 (amended): a record none of whose issued request identifiers has a
responder in the input - and whose own indexed response entries, if any,
name identifiers no record issues - is never removed and appears among
the survivors (with its parent possibly rewritten by repair), provided no
other record carries the same uuid value.  The original unconditional
claim fails when the record simultaneously answers a request that is
issued (see the counterexample). -/
theorem claim_C7_unmatched_preserved (msgs : List Message) (I : Message)
    (hmem : I ∈ msgs)
    (hU : ∀ m ∈ msgs, m.uuid = I.uuid → m = I)
    (hreq : ∀ t ∈ I.toolIds,
      t.bind (dictGet? (buildToolResultMap msgs)) = none)
    (hresp : ∀ e ∈ buildToolResultMap msgs, e.2 = I →
      dictGet? (buildToolUseMap msgs) (some e.1) = none) :
    I.uuid ∉ (removedInfo msgs).1 ∧
    ∃ p, { I with parentUuid := p } ∈ (clean msgs).messages := by
  have hnot : I.uuid ∉ (removedInfo msgs).1 := by
    intro hin
    rcases sel_sound (buildToolUseMap msgs) ([], 0) I.uuid hin with
      h0 | ⟨tid, m, r, hm, hres, hx⟩
    · simp at h0
    · obtain ⟨hmm, hmt⟩ := useMap_entry hm
      rcases hx with hx | hx
      · have hmI : m = I := hU m hmm hx.symm
        subst hmI
        have hul := hreq (some tid) hmt
        rw [Option.some_bind] at hul
        rw [hres] at hul
        cases hul
      · have hrr := dictGet?_mem hres
        obtain ⟨hrm, hrref, hrne⟩ := resMap_entry hrr
        have hrI : r = I := hU r hrm hx.symm
        have hnone := hresp (tid, r) hrr hrI
        have hsome := mem_dictGet?_isSome hm
        rw [hnone] at hsome
        cases hsome
  refine ⟨hnot, chainWalk (removedInfo msgs).1 (buildUuidMap msgs)
    ((removedInfo msgs).1.length) I.parentUuid, ?_⟩
  rw [clean_messages]
  have hin := @mem_rebuild_of_mem (removedInfo msgs).1 (buildUuidMap msgs)
    ((removedInfo msgs).1.length) msgs I hmem hnot
  rwa [repairMsg_fst] at hin

/-- Counterexample to C7 as stated: the record `I` issues the identifier
`x`, which no record answers, yet `I` is removed, because `I` also answers
the identifier `y` issued by the other record - the survivor sequence is
empty. -/
theorem claim_C7_counterexample :
    (some "x" : Option String)
      ∈ (⟨some "u", none, [some "x"], some "y"⟩ : Message).toolIds ∧
    dictGet? (buildToolResultMap [⟨some "u", none, [some "x"], some "y"⟩,
        ⟨some "v", none, [some "y"], none⟩]) "x" = none ∧
    (clean [⟨some "u", none, [some "x"], some "y"⟩,
        ⟨some "v", none, [some "y"], none⟩]).messages = [] ∧
    (∀ p, { (⟨some "u", none, [some "x"], some "y"⟩ : Message) with
        parentUuid := p }
      ∉ (clean [⟨some "u", none, [some "x"], some "y"⟩,
          ⟨some "v", none, [some "y"], none⟩]).messages) := by
  refine ⟨by decide, by decide, by decide, ?_⟩
  intro p
  have h : (clean [⟨some "u", none, [some "x"], some "y"⟩,
      ⟨some "v", none, [some "y"], none⟩]).messages = [] := by decide
  rw [h]
  simp

/-- Witness for the amended C7: a lone record issuing an unanswered
request identifier survives. -/
theorem claim_C7_unmatched_preserved_witness :
    (⟨some "u", some "par", [some "x"], none⟩ : Message).uuid
      ∉ (removedInfo [⟨some "u", some "par", [some "x"], none⟩]).1 ∧
    ∃ p, { (⟨some "u", some "par", [some "x"], none⟩ : Message) with
        parentUuid := p }
      ∈ (clean [⟨some "u", some "par", [some "x"], none⟩]).messages :=
  claim_C7_unmatched_preserved [⟨some "u", some "par", [some "x"], none⟩]
    ⟨some "u", some "par", [some "x"], none⟩
    (by decide) (by decide) (by decide) (by decide)

theorem sel_no_match {resMap : List (String × Message)} :
    ∀ (l : List (Option String × Message)) (acc : List (Option String) × Nat),
      (∀ e ∈ l, ∀ tid : String, e.1 = some tid →
        dictGet? resMap tid = none) →
      l.foldl (selStep resMap) acc = acc := by
  intro l
  induction l with
  | nil => intro acc _; rfl
  | cons e rest ih =>
    intro acc hnm
    have hstep : selStep resMap acc e = acc := by
      rcases he : e.1 with _ | tid
      · simp [selStep, he]
      · simp [selStep, he, hnm e (List.mem_cons_self _ _) tid he]
    rw [List.foldl_cons, hstep]
    exact ih acc (fun e' he' => hnm e' (List.mem_cons_of_mem _ he'))

theorem clean_stats_removed (msgs : List Message) :
    (clean msgs).stats.removed_messages = (removedInfo msgs).1.length := rfl

theorem clean_stats_pairs (msgs : List Message) :
    (clean msgs).stats.removed_pairs = (removedInfo msgs).2 := rfl

theorem clean_stats_repaired (msgs : List Message) :
    (clean msgs).stats.repaired_links
      = (rebuildMessages (removedInfo msgs).1 (buildUuidMap msgs)
          ((removedInfo msgs).1.length) msgs).2 := rfl

/-- C3 (amended): when each request identifier is issued by at most one
record and answered by at most one record, applying `clean` a second time
to the survivor sequence of the first application performs zero removals
(empty removal-mark set), zero pairs and zero repaired links, and returns
its input unchanged.  Without the at-most-one hypotheses the claim fails:
a shadowed duplicate issuer or responder of an identifier survives the
first run and pairs up on the second (see the counterexample). -/
theorem claim_C3_second_run_trivial (msgs : List Message)
    (Hiss : ∀ m ∈ msgs, ∀ m' ∈ msgs, ∀ t ∈ m.toolIds,
      t ∈ m'.toolIds → m = m')
    (Hresp : ∀ m ∈ msgs, ∀ m' ∈ msgs, ∀ r : String,
      m.toolUseIdRef = some r → m'.toolUseIdRef = some r → m = m') :
    (removedInfo (clean msgs).messages).1 = [] ∧
    (clean (clean msgs).messages).stats.removed_messages = 0 ∧
    (clean (clean msgs).messages).stats.removed_pairs = 0 ∧
    (clean (clean msgs).messages).stats.repaired_links = 0 ∧
    (clean (clean msgs).messages).messages = (clean msgs).messages := by
  have hnomatch : ∀ e ∈ buildToolUseMap (clean msgs).messages,
      ∀ tid : String, e.1 = some tid →
      dictGet? (buildToolResultMap (clean msgs).messages) tid = none := by
    intro e he tid htid
    rcases hres : dictGet? (buildToolResultMap (clean msgs).messages) tid with
      _ | rS
    · rfl
    · exfalso
      obtain ⟨hmS, hmt⟩ := useMap_entry he
      rw [htid] at hmt
      obtain ⟨hrS, hrref, hrne⟩ := resMap_lookup hres
      obtain ⟨m0, hm0, hm0not, hm0eq⟩ := mem_clean_elim hmS
      obtain ⟨r0, hr0, _, hr0eq⟩ := mem_clean_elim hrS
      have hm0t : (some tid : Option String) ∈ m0.toolIds := by
        rw [hm0eq, repairMsg_toolIds] at hmt
        exact hmt
      have hr0ref : r0.toolUseIdRef = some tid := by
        rw [hm0eq] at hmt
        rw [hr0eq, repairMsg_ref] at hrref
        exact hrref
      rcases hlu : dictGet? (buildToolUseMap msgs) (some tid) with _ | m1
      · have := useMap_complete hm0 hm0t
        rw [hlu] at this
        cases this
      · obtain ⟨hm1, hm1t⟩ := useMap_entry (dictGet?_mem hlu)
        have hm1eq : m1 = m0 := Hiss m1 hm1 m0 hm0 (some tid) hm1t hm0t
        rcases hlr : dictGet? (buildToolResultMap msgs) tid with _ | r1
        · have := resMap_complete hr0 hr0ref hrne
          rw [hlr] at this
          cases this
        · have hmark := sel_mark_complete hlr (buildToolUseMap msgs) ([], 0)
            (dictGet?_mem hlu)
          have : m1.uuid ∈ (removedInfo msgs).1 := hmark.1
          rw [hm1eq] at this
          exact hm0not this
  have hsel : removedInfo (clean msgs).messages = ([], 0) :=
    sel_no_match (buildToolUseMap (clean msgs).messages) ([], 0) hnomatch
  have hreb := rebuild_empty_removed
    (buildUuidMap (clean msgs).messages) 0 (clean msgs).messages
  refine ⟨by rw [hsel], ?_, ?_, ?_, ?_⟩
  · rw [clean_stats_removed, hsel]
    rfl
  · rw [clean_stats_pairs, hsel]
  · rw [clean_stats_repaired, hsel]
    simpa using congrArg Prod.snd hreb
  · rw [clean_messages (clean msgs).messages, hsel]
    simpa using congrArg Prod.fst hreb

/-- Counterexample to C3 as stated: with two issuers and two responders of
the same identifier `x`, the first run removes only the last-seen issuer
and responder; the shadowed pair survives and the second run removes two
more records, so the second run is not trivial. -/
theorem claim_C3_counterexample :
    (clean (clean [⟨some "1", none, [some "x"], none⟩,
        ⟨some "2", none, [some "x"], none⟩,
        ⟨some "3", none, [], some "x"⟩,
        ⟨some "4", none, [], some "x"⟩]).messages).stats.removed_messages
      = 2 ∧
    (clean (clean [⟨some "1", none, [some "x"], none⟩,
        ⟨some "2", none, [some "x"], none⟩,
        ⟨some "3", none, [], some "x"⟩,
        ⟨some "4", none, [], some "x"⟩]).messages).messages
      ≠ (clean [⟨some "1", none, [some "x"], none⟩,
          ⟨some "2", none, [some "x"], none⟩,
          ⟨some "3", none, [], some "x"⟩,
          ⟨some "4", none, [], some "x"⟩]).messages := by
  decide

/-- Witness for the amended C3 on Scenario B's four-record transcript. -/
theorem claim_C3_second_run_trivial_witness :
    (removedInfo (clean [⟨some "a", none, [], none⟩,
        ⟨some "b", some "a", [some "x"], none⟩,
        ⟨some "c", some "b", [], some "x"⟩,
        ⟨some "d", some "c", [], none⟩]).messages).1 = [] ∧
    (clean (clean [⟨some "a", none, [], none⟩,
        ⟨some "b", some "a", [some "x"], none⟩,
        ⟨some "c", some "b", [], some "x"⟩,
        ⟨some "d", some "c", [], none⟩]).messages).stats.removed_messages
      = 0 ∧
    (clean (clean [⟨some "a", none, [], none⟩,
        ⟨some "b", some "a", [some "x"], none⟩,
        ⟨some "c", some "b", [], some "x"⟩,
        ⟨some "d", some "c", [], none⟩]).messages).stats.removed_pairs = 0 ∧
    (clean (clean [⟨some "a", none, [], none⟩,
        ⟨some "b", some "a", [some "x"], none⟩,
        ⟨some "c", some "b", [], some "x"⟩,
        ⟨some "d", some "c", [], none⟩]).messages).stats.repaired_links
      = 0 ∧
    (clean (clean [⟨some "a", none, [], none⟩,
        ⟨some "b", some "a", [some "x"], none⟩,
        ⟨some "c", some "b", [], some "x"⟩,
        ⟨some "d", some "c", [], none⟩]).messages).messages
      = (clean [⟨some "a", none, [], none⟩,
          ⟨some "b", some "a", [some "x"], none⟩,
          ⟨some "c", some "b", [], some "x"⟩,
          ⟨some "d", some "c", [], none⟩]).messages :=
  claim_C3_second_run_trivial
    [⟨some "a", none, [], none⟩, ⟨some "b", some "a", [some "x"], none⟩,
     ⟨some "c", some "b", [], some "x"⟩, ⟨some "d", some "c", [], none⟩]
    (by decide) (by decide)

/-- The responder records of the matched use-map entries, in entry order:
one entry per use-map key that also occurs in the result map. -/
def matchedResponders (useMap : List (Option String × Message))
    (resMap : List (String × Message)) : List Message :=
  useMap.filterMap (fun e => e.1.bind (dictGet? resMap))

theorem sel_count_aux (msgs : List Message)
    (Hroles : ∀ m ∈ msgs, ¬(m.toolIds ≠ [] ∧
      (m.toolUseIdRef ≠ none ∧ m.toolUseIdRef ≠ some "")))
    (Huniq : ∀ m ∈ msgs, ∀ m' ∈ msgs, m.uuid = m'.uuid → m = m') :
    ∀ (l : List (Option String × Message)) (acc : List (Option String) × Nat),
      (∀ e ∈ l, e.2 ∈ msgs ∧ e.1 ∈ e.2.toolIds) →
      ((l.map Prod.fst).Nodup) →
      (∀ x ∈ acc.1,
        (∃ m ∈ msgs, x = m.uuid ∧ m.toolIds ≠ []) ∨
        (∃ tid : String, (some tid : Option String) ∉ l.map Prod.fst ∧
          ∃ r, dictGet? (buildToolResultMap msgs) tid = some r ∧
            x = r.uuid)) →
      (l.foldl (selStep (buildToolResultMap msgs)) acc).2
        = acc.2 + (matchedResponders l (buildToolResultMap msgs)).length ∧
      (l.foldl (selStep (buildToolResultMap msgs)) acc).1.length
        ≤ acc.1.length
          + 2 * (matchedResponders l (buildToolResultMap msgs)).length := by
  intro l
  induction l with
  | nil => intro acc _ _ _; simp [matchedResponders]
  | cons e rest ih =>
    intro acc Hl Hkeys Hacc
    have Hltail : ∀ e' ∈ rest, e'.2 ∈ msgs ∧ e'.1 ∈ e'.2.toolIds :=
      fun e' h => Hl e' (List.mem_cons_of_mem _ h)
    have Hkc := List.nodup_cons.1 (by simpa only [List.map_cons] using Hkeys)
    rcases he : e.1 with _ | tid
    · have hstep : selStep (buildToolResultMap msgs) acc e = acc := by
        simp [selStep, he]
      have hmr : matchedResponders (e :: rest) (buildToolResultMap msgs)
          = matchedResponders rest (buildToolResultMap msgs) := by
        simp [matchedResponders, List.filterMap_cons, he]
      rw [List.foldl_cons, hstep, hmr]
      refine ih acc Hltail Hkc.2 ?_
      intro x hx
      rcases Hacc x hx with h | ⟨tid', hnk, r, hr, hxr⟩
      · exact Or.inl h
      · refine Or.inr ⟨tid', ?_, r, hr, hxr⟩
        intro hk
        exact hnk (by
          simp only [List.map_cons]
          exact List.mem_cons_of_mem _ hk)
    · rcases hres : dictGet? (buildToolResultMap msgs) tid with _ | rM
      · have hstep : selStep (buildToolResultMap msgs) acc e = acc := by
          simp [selStep, he, hres]
        have hmr : matchedResponders (e :: rest) (buildToolResultMap msgs)
            = matchedResponders rest (buildToolResultMap msgs) := by
          simp [matchedResponders, List.filterMap_cons, he, hres]
        rw [List.foldl_cons, hstep, hmr]
        refine ih acc Hltail Hkc.2 ?_
        intro x hx
        rcases Hacc x hx with h | ⟨tid', hnk, r, hr, hxr⟩
        · exact Or.inl h
        · refine Or.inr ⟨tid', ?_, r, hr, hxr⟩
          intro hk
          exact hnk (by
            simp only [List.map_cons]
            exact List.mem_cons_of_mem _ hk)
      · obtain ⟨heM, heT⟩ := Hl e (List.mem_cons_self _ _)
        rw [he] at heT
        have heNe : e.2.toolIds ≠ [] := List.ne_nil_of_mem heT
        obtain ⟨hrM, hrref, hrne⟩ := resMap_lookup hres
        have hRresp : rM.toolUseIdRef ≠ none ∧ rM.toolUseIdRef ≠ some "" := by
          rw [hrref]
          exact ⟨by simp, by simpa using hrne⟩
        have hRids : rM.toolIds = [] := by
          by_contra hne
          exact Hroles rM hrM ⟨hne, hRresp⟩
        have hA : rM.uuid ∉ acc.1 := by
          intro hin
          rcases Hacc _ hin with ⟨m, hm, hxm, hmne⟩ |
            ⟨tid', hnk, r', hr', hxr⟩
          · have hmr' : m = rM := Huniq m hm rM hrM hxm.symm
            exact hmne (hmr' ▸ hRids)
          · have hr'rM : r' = rM :=
              Huniq r' (resMap_lookup hr').1 rM hrM hxr.symm
            obtain ⟨_, hr'ref, _⟩ := resMap_lookup hr'
            have htt : (some tid' : Option String) = some tid := by
              rw [← hr'ref, hr'rM, hrref]
            apply hnk
            rw [htt]
            simp only [List.map_cons, he]
            exact List.mem_cons_self _ _
        have hB : rM.uuid
            ∉ (if e.2.uuid ∈ acc.1 then acc.1 else acc.1 ++ [e.2.uuid]) := by
          by_cases h1 : e.2.uuid ∈ acc.1
          · rw [if_pos h1]
            exact hA
          · rw [if_neg h1]
            intro hin
            rcases List.mem_append.1 hin with h | h
            · exact hA h
            · have hru : rM.uuid = e.2.uuid := List.mem_singleton.1 h
              have heq : rM = e.2 := Huniq rM hrM e.2 heM hru
              exact heNe (heq ▸ hRids)
        have hstep : selStep (buildToolResultMap msgs) acc e
            = ((if e.2.uuid ∈ acc.1 then acc.1 else acc.1 ++ [e.2.uuid])
                ++ [rM.uuid], acc.2 + 1) := by
          simp only [selStep, he, hres, markPair]
          rw [if_neg hB]
        have hmr : matchedResponders (e :: rest) (buildToolResultMap msgs)
            = rM :: matchedResponders rest (buildToolResultMap msgs) := by
          simp [matchedResponders, List.filterMap_cons, he, hres]
        rw [List.foldl_cons, hstep, hmr]
        have Hacc' : ∀ x ∈ ((if e.2.uuid ∈ acc.1 then acc.1
              else acc.1 ++ [e.2.uuid]) ++ [rM.uuid]),
            (∃ m ∈ msgs, x = m.uuid ∧ m.toolIds ≠ []) ∨
            (∃ tid' : String, (some tid' : Option String)
                ∉ rest.map Prod.fst ∧
              ∃ r, dictGet? (buildToolResultMap msgs) tid' = some r ∧
                x = r.uuid) := by
          intro x hx
          have hold : x ∈ acc.1 →
              (∃ m ∈ msgs, x = m.uuid ∧ m.toolIds ≠ []) ∨
              (∃ tid' : String, (some tid' : Option String)
                  ∉ rest.map Prod.fst ∧
                ∃ r, dictGet? (buildToolResultMap msgs) tid' = some r ∧
                  x = r.uuid) := by
            intro hxa
            rcases Hacc x hxa with h | ⟨tid', hnk, r, hr, hxr⟩
            · exact Or.inl h
            · refine Or.inr ⟨tid', ?_, r, hr, hxr⟩
              intro hk
              exact hnk (by
                simp only [List.map_cons]
                exact List.mem_cons_of_mem _ hk)
          rcases List.mem_append.1 hx with hx | hx
          · by_cases h1 : e.2.uuid ∈ acc.1
            · rw [if_pos h1] at hx
              exact hold hx
            · rw [if_neg h1] at hx
              rcases List.mem_append.1 hx with hx | hx
              · exact hold hx
              · exact Or.inl ⟨e.2, heM, List.mem_singleton.1 hx, heNe⟩
          · have hxr := List.mem_singleton.1 hx
            refine Or.inr ⟨tid, ?_, rM, hres, hxr⟩
            rw [← he]
            exact Hkc.1
        obtain ⟨ih2, ih1⟩ := ih ((if e.2.uuid ∈ acc.1 then acc.1
          else acc.1 ++ [e.2.uuid]) ++ [rM.uuid], acc.2 + 1)
          Hltail Hkc.2 Hacc'
        have hlen1 : (if e.2.uuid ∈ acc.1 then acc.1
            else acc.1 ++ [e.2.uuid]).length ≤ acc.1.length + 1 := by
          by_cases h1 : e.2.uuid ∈ acc.1 <;> simp [h1]
        have hlen2 : ((if e.2.uuid ∈ acc.1 then acc.1
            else acc.1 ++ [e.2.uuid]) ++ [rM.uuid]).length
            = (if e.2.uuid ∈ acc.1 then acc.1
                else acc.1 ++ [e.2.uuid]).length + 1 := by
          simp
        constructor
        · rw [ih2]
          simp only [List.length_cons]
          omega
        · rw [hlen2] at ih1
          simp only [List.length_cons]
          omega

theorem matchedResponders_nodup (msgs : List Message) :
    (matchedResponders (buildToolUseMap msgs)
      (buildToolResultMap msgs)).Nodup := by
  have h1 : List.Pairwise (fun e e' : Option String × Message => e.1 ≠ e'.1)
      (buildToolUseMap msgs) :=
    List.pairwise_map.1 (useMap_keys_nodup msgs)
  have key : ∀ e e' : Option String × Message, e.1 ≠ e'.1 →
      ∀ b ∈ e.1.bind (dictGet? (buildToolResultMap msgs)),
      ∀ b' ∈ e'.1.bind (dictGet? (buildToolResultMap msgs)), b ≠ b' := by
    intro e e' hne b hb b' hb'
    simp only [Option.mem_def] at hb hb'
    rcases he : e.1 with _ | t
    · rw [he] at hb
      simp at hb
    · rcases he' : e'.1 with _ | t'
      · rw [he'] at hb'
        simp at hb'
      · rw [he, Option.some_bind] at hb
        rw [he', Option.some_bind] at hb'
        obtain ⟨_, hbr, _⟩ := resMap_lookup hb
        obtain ⟨_, hbr', _⟩ := resMap_lookup hb'
        intro heq
        apply hne
        rw [he, he']
        rw [heq] at hbr
        rw [hbr] at hbr'
        exact hbr'
  exact List.pairwise_filterMap.2 (h1.imp (fun {e e'} h => key e e' h))

/-- C9 (amended): on an input where no record is simultaneously a request
record and a response record AND uuids are pairwise distinct across
records, the removal-set size is at most twice the pair count, and the
pair count equals the number of distinct responder records marked during
selection (the matched use-map entries' responders, deduplicated).
Without the distinct-uuid hypothesis the bound fails: two responders
sharing a uuid are marked once but their issuers twice (see the
counterexample). -/
theorem claim_C9_stats (msgs : List Message)
    (Hroles : ∀ m ∈ msgs, ¬(m.toolIds ≠ [] ∧
      (m.toolUseIdRef ≠ none ∧ m.toolUseIdRef ≠ some "")))
    (Huniq : ∀ m ∈ msgs, ∀ m' ∈ msgs, m.uuid = m'.uuid → m = m') :
    (clean msgs).stats.removed_messages
      ≤ 2 * (clean msgs).stats.removed_pairs ∧
    (clean msgs).stats.removed_pairs
      = ((matchedResponders (buildToolUseMap msgs)
          (buildToolResultMap msgs)).dedup).length := by
  obtain ⟨h2, h1⟩ := sel_count_aux msgs Hroles Huniq (buildToolUseMap msgs)
    ([], 0) (fun e he => useMap_entry he) (useMap_keys_nodup msgs)
    (by intro x hx; simp at hx)
  have hded : (matchedResponders (buildToolUseMap msgs)
        (buildToolResultMap msgs)).dedup
      = matchedResponders (buildToolUseMap msgs) (buildToolResultMap msgs) :=
    List.dedup_eq_self.2 (matchedResponders_nodup msgs)
  have e1 : (removedInfo msgs).1.length
      ≤ 2 * (matchedResponders (buildToolUseMap msgs)
          (buildToolResultMap msgs)).length := by
    simpa using h1
  have e2 : (removedInfo msgs).2
      = (matchedResponders (buildToolUseMap msgs)
          (buildToolResultMap msgs)).length := by
    simpa using h2
  constructor
  · rw [clean_stats_removed, clean_stats_pairs, e2]
    exact e1
  · rw [clean_stats_pairs, hded]
    exact e2

/-- Counterexample to C9 as stated: two issuers of different identifiers
answered by two responders sharing one uuid.  No record is both a request
record and a response record, yet three uuids are marked against one
counted pair, violating the claimed bound. -/
theorem claim_C9_counterexample :
    (∀ m ∈ ([⟨some "u1", none, [some "x"], none⟩,
        ⟨some "u2", none, [some "y"], none⟩,
        ⟨some "r", none, [], some "x"⟩,
        ⟨some "r", none, [], some "y"⟩] : List Message),
      ¬(m.toolIds ≠ [] ∧
        (m.toolUseIdRef ≠ none ∧ m.toolUseIdRef ≠ some ""))) ∧
    (clean [⟨some "u1", none, [some "x"], none⟩,
        ⟨some "u2", none, [some "y"], none⟩,
        ⟨some "r", none, [], some "x"⟩,
        ⟨some "r", none, [], some "y"⟩]).stats.removed_messages = 3 ∧
    (clean [⟨some "u1", none, [some "x"], none⟩,
        ⟨some "u2", none, [some "y"], none⟩,
        ⟨some "r", none, [], some "x"⟩,
        ⟨some "r", none, [], some "y"⟩]).stats.removed_pairs = 1 ∧
    ¬((clean [⟨some "u1", none, [some "x"], none⟩,
        ⟨some "u2", none, [some "y"], none⟩,
        ⟨some "r", none, [], some "x"⟩,
        ⟨some "r", none, [], some "y"⟩]).stats.removed_messages
      ≤ 2 * (clean [⟨some "u1", none, [some "x"], none⟩,
          ⟨some "u2", none, [some "y"], none⟩,
          ⟨some "r", none, [], some "x"⟩,
          ⟨some "r", none, [], some "y"⟩]).stats.removed_pairs) := by
  decide

/-- Witness for the amended C9 on Scenario B's four-record transcript. -/
theorem claim_C9_stats_witness :
    (clean [⟨some "a", none, [], none⟩,
        ⟨some "b", some "a", [some "x"], none⟩,
        ⟨some "c", some "b", [], some "x"⟩,
        ⟨some "d", some "c", [], none⟩]).stats.removed_messages
      ≤ 2 * (clean [⟨some "a", none, [], none⟩,
          ⟨some "b", some "a", [some "x"], none⟩,
          ⟨some "c", some "b", [], some "x"⟩,
          ⟨some "d", some "c", [], none⟩]).stats.removed_pairs ∧
    (clean [⟨some "a", none, [], none⟩,
        ⟨some "b", some "a", [some "x"], none⟩,
        ⟨some "c", some "b", [], some "x"⟩,
        ⟨some "d", some "c", [], none⟩]).stats.removed_pairs
      = ((matchedResponders
          (buildToolUseMap [⟨some "a", none, [], none⟩,
            ⟨some "b", some "a", [some "x"], none⟩,
            ⟨some "c", some "b", [], some "x"⟩,
            ⟨some "d", some "c", [], none⟩])
          (buildToolResultMap [⟨some "a", none, [], none⟩,
            ⟨some "b", some "a", [some "x"], none⟩,
            ⟨some "c", some "b", [], some "x"⟩,
            ⟨some "d", some "c", [], none⟩])).dedup).length :=
  claim_C9_stats
    [⟨some "a", none, [], none⟩, ⟨some "b", some "a", [some "x"], none⟩,
     ⟨some "c", some "b", [], some "x"⟩, ⟨some "d", some "c", [], none⟩]
    (by decide) (by decide)

/-- C6: Scenario B. On
`[R1(a), U1(b,parent a,issues x), T1(c,parent b,answers x), F1(d,parent c)]`
`clean` returns `[R1, F1]` in order with `F1`'s parent rewritten from `c`
to `a`, and repaired-link count exactly 1. -/
theorem claim_C6_scenarioB :
    (clean [⟨some "a", none, [], none⟩,
            ⟨some "b", some "a", [some "x"], none⟩,
            ⟨some "c", some "b", [], some "x"⟩,
            ⟨some "d", some "c", [], none⟩]).messages
      = [⟨some "a", none, [], none⟩, ⟨some "d", some "a", [], none⟩] ∧
    (clean [⟨some "a", none, [], none⟩,
            ⟨some "b", some "a", [some "x"], none⟩,
            ⟨some "c", some "b", [], some "x"⟩,
            ⟨some "d", some "c", [], none⟩]).stats.repaired_links = 1 := by
  decide

/-- C8: the survivor sequence is a subsequence of the input in the original
relative order, no reordering and no duplication.  Records are compared on
their immutable part (`stripParent`), `parentUuid` being the one designated
mutable cell that the repair pass rewrites in place. -/
theorem claim_C8_subsequence (msgs : List Message) :
    ((clean msgs).messages.map stripParent).Sublist (msgs.map stripParent) := by
  rw [clean_messages, rebuild_eq, List.map_map]
  have hcongr :
      (msgs.filter (fun m => !(decide (m.uuid ∈ (removedInfo msgs).1)))).map
        (stripParent ∘ fun m =>
          (repairMsg (removedInfo msgs).1 (buildUuidMap msgs)
            ((removedInfo msgs).1.length) m).1)
      = (msgs.filter
          (fun m => !(decide (m.uuid ∈ (removedInfo msgs).1)))).map
            stripParent := by
    refine List.map_congr_left ?_
    intro m _
    simp only [Function.comp_apply, repairMsg_fst, stripParent]
  rw [hcongr]
  exact (List.filter_sublist msgs).map stripParent

end TCC
